import Mathlib

/-!
Shallow embedding of the super-roast-bot request pipeline.

The repository contains two variants of the app:
  * `super roast bot/` (modelled below in namespace `V1`): rag.py, memory.py,
    rate_limiter.py, app.py;
  * `super-roast-bot/` (namespace `V2`): the theme-aware rag.py, the
    ScoredMessage deque memory, and the streaming app.py.

Machine-level conventions of the embedding:
  * timestamps and distances are rationals (`ℚ`);
  * Python strings are Lean `String`s / `List Char`s, with Python's
    `str.strip`, `str.isspace`, `str.lower`, slicing and `in` re-implemented
    below;
  * `collections.deque(maxlen = n)` is a list that drops its leftmost
    element on append when full (`pushCap`);
  * FAISS `IndexFlatL2.search(q, k)` over `n` stored vectors returns the `k`
    smallest-distance indices in non-decreasing distance order and, when
    `k > n`, pads the result with the label `-1` (FAISS's documented
    behaviour for missing neighbours);
  * the embedding model is an external capability: theorems quantify over
    the distance profile `d : Nat → ℚ` of a query against the stored chunks;
  * file I/O (`get_text_from_files`, `splitlines`) is out of scope: corpus
    text / line sequences are parameters of the corresponding functions.
-/

set_option maxHeartbeats 1000000

/-- Python whitespace predicate on a character: the set recognised by
`str.isspace` / `str.strip` / regex `\s` for the ASCII range. -/
def isPySpace (c : Char) : Bool :=
  c = ' ' || c = '\t' || c = '\n' || c = '\r' || c = '\x0b' || c = '\x0c'

/-- Python `str.strip` on a character list: drop whitespace from the front,
then from the back. -/
def pyStrip (l : List Char) : List Char :=
  List.rdropWhile isPySpace (l.dropWhile isPySpace)

/-- Python `str.strip` on a `String`. -/
def pyStripS (s : String) : String :=
  ⟨pyStrip s.data⟩

/-- Python `str.lower` on a `String` (ASCII case fold). -/
def pyLowerS (s : String) : String :=
  ⟨s.data.map Char.toLower⟩

/-- Python `str.isspace` on a `String`: non-empty and all whitespace. -/
def pyIsSpaceS (s : String) : Bool :=
  !s.isEmpty && s.data.all isPySpace

/-- Python slicing `s[:100]`, used to truncate raw error detail. -/
def trunc100 (s : String) : String :=
  ⟨s.data.take 100⟩

/-- `needle` is a leading segment of `hay` (helper for Python's `in`). -/
def isPrefixOfL : List Char → List Char → Bool
  | [], _ => true
  | _ :: _, [] => false
  | a :: as, b :: bs => a == b && isPrefixOfL as bs

/-- Python's substring test `needle in hay`. -/
def containsSub (needle : List Char) : List Char → Bool
  | [] => isPrefixOfL needle []
  | b :: rest => isPrefixOfL needle (b :: rest) || containsSub needle rest

/-- `collections.deque(maxlen := cap)`: appending to a full deque discards
the leftmost element. -/
def pushCap (cap : Nat) (st : List α) (x : α) : List α :=
  if st.length < cap then st ++ [x] else st.drop 1 ++ [x]

/-- The order FAISS reports flat-L2 results in: strictly smaller distance
first, ties broken by lower index. -/
def faissLe (d : Nat → ℚ) (i j : Nat) : Prop :=
  d i < d j ∨ (d i = d j ∧ i ≤ j)

instance (d : Nat → ℚ) : DecidableRel (faissLe d) := fun i j => by
  unfold faissLe
  exact inferInstance

/-- The stored indices `0, …, n-1` ranked by distance to the query. -/
def rankedIndices (n : Nat) (d : Nat → ℚ) : List Nat :=
  List.insertionSort (faissLe d) (List.range n)

/-- `faiss.IndexFlatL2.search` over `n` stored vectors, distance profile `d`:
the `k` nearest stored indices; when `k > n` the tail of the result is
padded with the invalid label `-1`. -/
def faissSearch (n : Nat) (d : Nat → ℚ) (k : Nat) : List Int :=
  let found := ((rankedIndices n d).take k).map (Int.ofNat)
  found ++ List.replicate (k - found.length) (-1)

/-- Python list indexing `l[i]` including negative indices (`l[-1]` is the
last element); out-of-range access is modelled by a default. -/
def pyGetD (l : List String) (i : Int) : String :=
  if 0 ≤ i then l.getD i.toNat "" else l.getD (l.length - (-i).toNat) ""

/-- State of the sliding-window-log rate limiter (`rate_limiter.py`):
configuration plus the per-client timestamp deques (`defaultdict(deque)`,
so every client starts with an empty log). -/
structure RateLimiter where
  max_requests : Nat
  window_seconds : ℚ
  clients : String → List ℚ

namespace RateLimiter

/-- `RateLimiter(max_requests, window_seconds)`. -/
def init (maxR : Nat) (window : ℚ) : RateLimiter :=
  ⟨maxR, window, fun _ => []⟩

/-- The lazy prune loop: `while history and history[0] <= window_start:
history.popleft()`.  Timestamps are appended in call order, so popping from
the left while the head is expired is `dropWhile`. -/
def pruneLog (window now : ℚ) (history : List ℚ) : List ℚ :=
  history.dropWhile (fun t => decide (t ≤ now - window))

/-- `RateLimiter.is_allowed`: prune, then either reject (when the pruned log
has reached `max_requests`) or record `now` and allow.  Returns the decision
together with the updated limiter state. -/
def is_allowed (rl : RateLimiter) (client : String) (now : ℚ) : Bool × RateLimiter :=
  let pruned := pruneLog rl.window_seconds now (rl.clients client)
  if rl.max_requests ≤ pruned.length then
    (false, { rl with clients := fun c => if c = client then pruned else rl.clients c })
  else
    (true, { rl with clients := fun c => if c = client then pruned ++ [now] else rl.clients c })

/-- `RateLimiter.get_wait_time`: prune, return `0.0` under the limit,
otherwise the time until the oldest surviving timestamp leaves the window,
clamped at `0`. -/
def get_wait_time (rl : RateLimiter) (client : String) (now : ℚ) : ℚ × RateLimiter :=
  let pruned := pruneLog rl.window_seconds now (rl.clients client)
  let rl' := { rl with clients := fun c => if c = client then pruned else rl.clients c }
  if pruned.length < rl.max_requests then (0, rl')
  else (max 0 (pruned.headI + rl.window_seconds - now), rl')

/-- Replay a sequence of `(client, time)` requests through the limiter,
collecting the decisions. -/
def runCalls (rl : RateLimiter) : List (String × ℚ) → List Bool
  | [] => []
  | (c, t) :: rest => (rl.is_allowed c t).1 :: runCalls (rl.is_allowed c t).2 rest

end RateLimiter

/-- The canned reply both variants return for empty / whitespace-only input
(`app.py`). -/
def cannedEmptyReply : String :=
  "You sent me nothing? Even your messages are empty, just like your GitHub contribution graph. 🔥"

/-- The generic upstream-failure reply of both variants:
`f"Even I broke trying to roast you. Error: {str(e)[:100]}"`. -/
def genericErrorReply (e : String) : String :=
  "Even I broke trying to roast you. Error: " ++ trunc100 e

/-- The chunking loop shared by both `load_and_chunk` variants:
`for i in range(0, len(text), chunk_size): chunk = text[i:i+chunk_size].strip();
if chunk: chunks.append(chunk)`  (Python's `range` requires a positive step,
hence the hypothesis). -/
def chunkBySize (csz : Nat) (hc : 0 < csz) (text : List Char) : List (List Char) :=
  if h : text = [] then []
  else if pyStrip (text.take csz) = [] then chunkBySize csz hc (text.drop csz)
  else pyStrip (text.take csz) :: chunkBySize csz hc (text.drop csz)
termination_by text.length
decreasing_by
  all_goals
    simp only [List.length_drop]
    have := List.length_pos.mpr h
    omega

namespace V1

/-- One user/bot exchange as stored by `super roast bot/memory.py`
(`{"user": ..., "bot": ...}`). -/
structure Exchange where
  user : String
  bot : String
deriving DecidableEq, Repr

/-- `MAX_MEMORY = 5` exchange pairs. -/
def MAX_MEMORY : Nat := 5

/-- `add_to_memory(user_msg, bot_msg)`: strip both sides and append to the
`deque(maxlen=MAX_MEMORY)`. -/
def add_to_memory (mem : List Exchange) (user_msg bot_msg : String) : List Exchange :=
  pushCap MAX_MEMORY mem ⟨pyStripS user_msg, pyStripS bot_msg⟩

/-- `get_memory()` returns the deque contents as a list, oldest first. -/
def get_memory (mem : List Exchange) : List Exchange :=
  mem

/-- The observable outcome of one `chat` call in `super roast bot/app.py`:
the returned reply, the memory store afterwards, and whether the pipeline
past the empty-input guard (retrieval + upstream call) ran at all. -/
structure ChatOutcome where
  reply : String
  mem : List Exchange
  ranPipeline : Bool
deriving DecidableEq, Repr

/-- `chat(user_input)` of `super roast bot/app.py`.  The try-block
(retrieval, history assembly, upstream call) is summarised by the oracle
`upstream`: `.ok reply` when the Groq call succeeds, `.error e` when any
exception with text `e` is raised.  On success the exchange is stored in
memory before returning; on failure the memory write is never reached. -/
def chat (mem : List Exchange) (upstream : Except String String) (user_input : String) :
    ChatOutcome :=
  if user_input.isEmpty || pyIsSpaceS user_input then
    ⟨cannedEmptyReply, mem, false⟩
  else
    match upstream with
    | .ok reply => ⟨reply, add_to_memory mem user_input reply, true⟩
    | .error e => ⟨genericErrorReply e, mem, true⟩

/-- The fallback chunk substituted by `build_index` when the corpus is
empty. -/
def fallbackChunk : String :=
  "Default roast: Your code is so dry it\x27s a fire hazard."

/-- `build_index(chunks, model)` of `super roast bot/rag.py`, projected to
the chunk list it stores alongside the FAISS index: an empty corpus is
replaced by the single fallback chunk. -/
def build_index (chunks : List String) : List String :=
  if chunks = [] then [fallbackChunk] else chunks

/-- `load_and_chunk(chunk_size=500)` of `super roast bot/rag.py`, with the
combined corpus text (the result of `get_text_from_files`) as a parameter. -/
def load_and_chunk (csz : Nat) (hc : 0 < csz) (text : List Char) : List (List Char) :=
  chunkBySize csz hc text

/-- The result list of `retrieve_context(query, top_k=3)` of
`super roast bot/rag.py` before joining:
`[CHUNKS[i] for i in indices[0] if i < len(CHUNKS)]`.
The bounds filter `i < len(CHUNKS)` keeps FAISS's `-1` padding, and Python's
negative indexing resolves `CHUNKS[-1]` to the LAST chunk. -/
def retrieveList (chunks : List String) (d : Nat → ℚ) (top_k : Nat) : List String :=
  ((faissSearch chunks.length d top_k).filter
      (fun i => decide (i < (chunks.length : Int)))).map (pyGetD chunks)

/-- `retrieve_context` itself: the hits joined with a blank line. -/
def retrieve_context (chunks : List String) (d : Nat → ℚ) (top_k : Nat) : String :=
  String.intercalate "\n\n" (retrieveList chunks d top_k)

end V1

namespace V2

/-- Message roles of the ScoredMessage store. -/
inductive Role where
  | user
  | assistant
deriving DecidableEq, Repr

/-- `ScoredMessage` of `super-roast-bot/memory.py` (the second, effective
definition set in that file): one message with an importance score. -/
structure ScoredMessage where
  role : Role
  content : String
  importance : Int
deriving DecidableEq, Repr

/-- `MAX_MEMORY = 20` message pairs; the deque cap is `MAX_MEMORY * 2`
individual messages. -/
def MAX_MEMORY : Nat := 20

/-- `add_to_memory(user_msg, bot_msg, importance=1)`: append the user
message then the assistant message to `_store = deque(maxlen=MAX_MEMORY*2)`. -/
def add_to_memory (store : List ScoredMessage) (user_msg bot_msg : String)
    (importance : Int) : List ScoredMessage :=
  pushCap (MAX_MEMORY * 2)
    (pushCap (MAX_MEMORY * 2) store ⟨Role.user, user_msg, importance⟩)
    ⟨Role.assistant, bot_msg, importance⟩

/-- `get_memory()` returns the raw ScoredMessage list, oldest first. -/
def get_memory (store : List ScoredMessage) : List ScoredMessage :=
  store

/-- `"401" in error_msg or "AuthenticationError" in error_msg or
"expired_api_key" in error_msg` — the auth-failure classifier of
`super-roast-bot/app.py`. -/
def isAuthErrorMsg (e : String) : Bool :=
  containsSub "401".data e.data || containsSub "AuthenticationError".data e.data ||
    containsSub "expired_api_key".data e.data

/-- The distinguishable credential-failure message. -/
def authErrorReply : String :=
  "❌ Invalid or Expired API Key. Please update the sidebar or your `.env` file."

/-- Reply when no API key is configured (`client is None`). -/
def noKeyReply : String :=
  "⚠️ I can\x27t roast you without an API key. Stop being poor and add one to the sidebar or `.env`. 🔥"

/-- Outcome of one `chat` call in `super-roast-bot/app.py`: the returned
reply, whether the pipeline past the guards ran, and the message shown via
`st.error` on the failure path (a side channel, not the returned reply). -/
structure ChatOutcome where
  reply : String
  ranPipeline : Bool
  displayedError : Option String
deriving DecidableEq, Repr

/-- `chat(user_input)` of `super-roast-bot/app.py`.  Note that on an
exception BOTH branches return the same generic truncated reply; the
auth-specific message only goes to the `st.error` display channel. -/
def chat (hasClient : Bool) (upstream : Except String String) (user_input : String) :
    ChatOutcome :=
  if user_input.isEmpty || pyIsSpaceS user_input then
    ⟨cannedEmptyReply, false, none⟩
  else if !hasClient then
    ⟨noKeyReply, false, none⟩
  else
    match upstream with
    | .ok reply => ⟨reply, true, none⟩
    | .error e =>
        ⟨genericErrorReply e, true,
          some (if isAuthErrorMsg e then authErrorReply
                else "Error generating roast: " ++ e)⟩

/-- `chat_stream(user_input)` of `super-roast-bot/app.py`, collapsed to the
text it yields: here the auth-failure branch DOES yield the distinguishable
credential message. -/
def chat_stream (hasClient : Bool) (upstream : Except String String) (user_input : String) :
    String × Bool :=
  if user_input.isEmpty || pyIsSpaceS user_input then
    (cannedEmptyReply, false)
  else if !hasClient then
    (noKeyReply, false)
  else
    match upstream with
    | .ok reply => (reply, true)
    | .error e =>
        (if isAuthErrorMsg e then authErrorReply else genericErrorReply e, true)

/-- The Streamlit call site of `super-roast-bot/app.py`
(`if user_input := st.chat_input(...)`): a falsy (empty) input is skipped
entirely; otherwise the reply is produced by `chat_stream` or `chat`
(depending on the streaming toggle) and the exchange is recorded with
`add_to_memory` unconditionally.  (The source passes the session id in the
importance position; the stored contents are unaffected, so the importance
argument is taken as the default 1 here.) -/
def handleTurn (streaming : Bool) (store : List ScoredMessage) (hasClient : Bool)
    (upstream : Except String String) (user_input : String) : List ScoredMessage :=
  if user_input.isEmpty then
    store
  else
    let reply := if streaming then (chat_stream hasClient upstream user_input).1
                 else (chat hasClient upstream user_input).reply
    add_to_memory store user_input reply 1

/-- Regex word character `\w` (ASCII). -/
def isWordChar (c : Char) : Bool :=
  c.isAlphanum || c = '_'

/-- The match of `_THEME_TAG_RE = re.compile(r"^\[THEME:(\w+)\]\s*", re.IGNORECASE)`
against a line: on success, the captured word and the match end `m.end()`
(prefix + word + bracket + trailing whitespace). -/
def matchThemeTag (line : List Char) : Option (List Char × Nat) :=
  if (line.take 7).map Char.toLower = "[theme:".data then
    let rest := line.drop 7
    let w := rest.takeWhile isWordChar
    if w.isEmpty then none
    else
      match rest.drop w.length with
      | ']' :: tail => some (w, 7 + w.length + 1 + (tail.takeWhile isPySpace).length)
      | _ => none
  else none

/-- Per line of `load_and_chunk`: `theme = m.group(1).lower()` and
`text = line[m.end():].strip()` on a match, else the empty theme and the
line unchanged. -/
def lineThemeText (line : List Char) : List Char × List Char :=
  match matchThemeTag line with
  | some (w, e) => (w.map Char.toLower, pyStrip (line.drop e))
  | none => ([], line)

/-- The loop body of `load_and_chunk` in `super-roast-bot/rag.py`: skip
theme-stripped empty lines, otherwise append the line's sub-chunks and one
copy of its theme per sub-chunk (the two lists grow in lockstep). -/
def chunkThemeStep (csz : Nat) (hc : 0 < csz)
    (acc : List (List Char) × List (List Char)) (line : List Char) :
    List (List Char) × List (List Char) :=
  let tt := lineThemeText line
  if tt.2 = [] then acc
  else
    (acc.1 ++ chunkBySize csz hc tt.2,
     acc.2 ++ List.replicate (chunkBySize csz hc tt.2).length tt.1)

/-- The placeholder of the theme-aware loader: `return ["No data"], [""]`. -/
def noDataChunk : List Char :=
  "No data".data

/-- `load_and_chunk(chunk_size=500)` of `super-roast-bot/rag.py`, with the
raw corpus line list (the result of `raw_text.splitlines()`) as a
parameter: keep lines that are non-blank after stripping and do not start
with `#`, strip them, extract theme tags, sub-chunk, and fall back to
`(["No data"], [""])` when nothing survives. -/
def load_and_chunk (csz : Nat) (hc : 0 < csz) (rawLines : List (List Char)) :
    List (List Char) × List (List Char) :=
  let lines := (rawLines.filter
      (fun l => !(pyStrip l).isEmpty && !(decide (l.head? = some '#')))).map pyStrip
  let acc := lines.foldl (chunkThemeStep csz hc) ([], [])
  if acc.1 = [] then ([noDataChunk], [[]])
  else acc

/-- `candidate_indices = [i for i in indices[0] if i < len(CHUNKS)]` — here
`fetch_k = min(fetch_k, len(CHUNKS))` has already ruled the `-1` padding
out, so the surviving labels are genuine indices. -/
def candidateIndices (n : Nat) (d : Nat → ℚ) (fetch_k : Nat) : List Nat :=
  ((faissSearch n d fetch_k).filter (fun i => decide (i < (n : Int)))).map Int.toNat

/-- The theme-biased re-ranking of `retrieve_context`:
`themed = [i for i in candidate_indices if CHUNK_THEMES[i] == theme_norm]`,
`unthemed = [i for i in candidate_indices if CHUNK_THEMES[i] != theme_norm]`,
`ranked = themed + unthemed`, `selected = ranked[:top_k]`. -/
def rerankTheme (themes : Nat → String) (theme_norm : String) (top_k : Nat)
    (cand : List Nat) : List Nat :=
  let themed := cand.filter (fun i => themes i == theme_norm)
  let unthemed := cand.filter (fun i => !(themes i == theme_norm))
  (themed ++ unthemed).take top_k

/-- The chunk indices selected by `retrieve_context(query, top_k,
dominant_theme)` of `super-roast-bot/rag.py`:
`fetch_k = top_k * 4 if dominant_theme else top_k`,
`fetch_k = min(fetch_k, len(CHUNKS))`, FAISS search, bounds filter, and then
either the plain semantic top-k or the theme-biased re-ranking with
`theme_norm = dominant_theme.lower().strip()`. -/
def retrieveIndices (n : Nat) (d : Nat → ℚ) (themes : Nat → String) (top_k : Nat)
    (dominant_theme : String) : List Nat :=
  let fetch_k := if !dominant_theme.isEmpty then top_k * 4 else top_k
  let cand := candidateIndices n d (min fetch_k n)
  if dominant_theme.isEmpty then cand.take top_k
  else rerankTheme themes (pyStripS (pyLowerS dominant_theme)) top_k cand

/-- `retrieve_context` itself: selected chunk texts joined with a blank
line. -/
def retrieve_context (chunks : List String) (d : Nat → ℚ) (themes : Nat → String)
    (top_k : Nat) (dominant_theme : String) : String :=
  String.intercalate "\n\n"
    ((retrieveIndices chunks.length d themes top_k dominant_theme).map
      (fun i => chunks.getD i ""))

end V2

/-! ## Supporting lemmas -/

theorem length_pyStrip_le (l : List Char) : (pyStrip l).length ≤ l.length := by
  unfold pyStrip
  calc (List.rdropWhile isPySpace (l.dropWhile isPySpace)).length
      ≤ (l.dropWhile isPySpace).length :=
        ( List.rdropWhile_prefix isPySpace _).sublist.length_le
    _ ≤ l.length := (List.dropWhile_suffix isPySpace).sublist.length_le

theorem dropWhile_cons_false {p : α → Bool} {a : α} (l : List α) (h : p a = false) :
    (a :: l).dropWhile p = a :: l := by
  simp [List.dropWhile, h]

theorem head_of_dropWhile_eq_cons {p : α → Bool} (l : List α) {x : α} {xs : List α}
    (h : l.dropWhile p = x :: xs) : p x = false := by
  induction l with
  | nil => simp [List.dropWhile] at h
  | cons a t ih =>
    by_cases hp : p a = true
    · rw [List.dropWhile_cons, if_pos hp] at h
      exact ih h
    · rw [List.dropWhile_cons, if_neg hp] at h
      cases h
      exact Bool.eq_false_iff.mpr hp

theorem dropWhile_eq_self_of_all_false {p : α → Bool} {l : List α}
    (h : ∀ x ∈ l, p x = false) : l.dropWhile p = l := by
  cases l with
  | nil => rfl
  | cons a t => exact dropWhile_cons_false t (h a (List.mem_cons_self a t))

theorem dropWhile_eq_nil_of_all_true {p : α → Bool} {l : List α}
    (h : ∀ x ∈ l, p x = true) : l.dropWhile p = [] := by
  induction l with
  | nil => rfl
  | cons a t ih =>
    rw [List.dropWhile_cons, if_pos (h a (List.mem_cons_self a t))]
    exact ih fun x hx => h x (List.mem_cons_of_mem a hx)

theorem mem_of_mem_pyStrip {l : List Char} : ∀ c ∈ pyStrip l, c ∈ l := by
  intro c hc
  unfold pyStrip at hc
  have h1 := ( List.rdropWhile_prefix isPySpace (l.dropWhile isPySpace)).sublist.subset hc
  exact (List.dropWhile_suffix isPySpace).sublist.subset h1

theorem pyStrip_idem (l : List Char) : pyStrip (pyStrip l) = pyStrip l := by
  unfold pyStrip
  set m := l.dropWhile isPySpace with hm
  have hmfix : m.dropWhile isPySpace = m := by
    rw [hm]
    exact List.dropWhile_idempotent isPySpace l
  have hfront : (List.rdropWhile isPySpace m).dropWhile isPySpace =
      List.rdropWhile isPySpace m := by
    obtain ⟨t, ht⟩ := List.rdropWhile_prefix isPySpace m
    cases hrd : List.rdropWhile isPySpace m with
    | nil => rfl
    | cons x xs =>
      apply dropWhile_cons_false
      rw [hrd] at ht
      have : m.dropWhile isPySpace = x :: (xs ++ t) := by
        rw [hmfix, ← ht]
        simp
      exact head_of_dropWhile_eq_cons m this
  rw [hfront, List.rdropWhile_idempotent]

theorem chunkBySize_mem_aux (csz : Nat) (hc : 0 < csz) :
    ∀ (n : Nat) (text : List Char), text.length ≤ n → ∀ c ∈ chunkBySize csz hc text,
      pyStrip c = c ∧ c ≠ [] ∧ c.length ≤ csz := by
  intro n
  induction n with
  | zero =>
    intro text hlen c hcmem
    have htext : text = [] := List.length_eq_zero.mp (Nat.le_zero.mp hlen)
    rw [chunkBySize, dif_pos htext] at hcmem
    simp at hcmem
  | succ n ih =>
    intro text hlen c hcmem
    have hdrop : (text.drop csz).length ≤ n := by
      by_cases htext : text = []
      · simp [htext]
      · have := List.length_pos.mpr htext
        simp only [List.length_drop]
        omega
    by_cases htext : text = []
    · rw [chunkBySize, dif_pos htext] at hcmem
      simp at hcmem
    · rw [chunkBySize, dif_neg htext] at hcmem
      by_cases hch : pyStrip (text.take csz) = []
      · rw [if_pos hch] at hcmem
        exact ih (text.drop csz) hdrop c hcmem
      · rw [if_neg hch] at hcmem
        rcases List.mem_cons.mp hcmem with hceq | hcrest
        · subst hceq
          refine ⟨pyStrip_idem _, hch, ?_⟩
          calc (pyStrip (text.take csz)).length
              ≤ (text.take csz).length := length_pyStrip_le _
            _ ≤ csz := by
                rw [List.length_take]
                omega
        · exact ih (text.drop csz) hdrop c hcrest

theorem chunkBySize_mem (csz : Nat) (hc : 0 < csz) (text : List Char) :
    ∀ c ∈ chunkBySize csz hc text, pyStrip c = c ∧ c ≠ [] ∧ c.length ≤ csz :=
  chunkBySize_mem_aux csz hc text.length text le_rfl

theorem foldl_pushCap (cap : Nat) (hcap : 0 < cap) (xs : List α) :
    xs.foldl (pushCap cap) [] = xs.drop (xs.length - cap) := by
  induction xs using List.reverseRecOn with
  | nil => simp
  | append_singleton xs x ih =>
    rw [List.foldl_append, List.foldl_cons, List.foldl_nil, ih]
    by_cases h : xs.length < cap
    · have h0 : xs.length - cap = 0 := by omega
      have h1 : xs.length + [x].length - cap = 0 := by simp; omega
      rw [h0, List.drop_zero]
      unfold pushCap
      rw [if_pos h]
      rw [List.length_append, h1, List.drop_zero]
    · have hlen : (xs.drop (xs.length - cap)).length = cap := by
        rw [List.length_drop]
        omega
      unfold pushCap
      rw [if_neg (by omega), List.drop_drop, List.length_append,
        List.drop_append_eq_append_drop]
      have h2 : xs.length + [x].length - cap - xs.length = 0 := by simp; omega
      have h3 : xs.length - cap + 1 = xs.length + [x].length - cap := by simp; omega
      rw [h2, List.drop_zero, h3]

theorem length_foldl_pushCap (cap : Nat) (hcap : 0 < cap) (xs : List α) :
    (xs.foldl (pushCap cap) []).length = min xs.length cap := by
  rw [foldl_pushCap cap hcap, List.length_drop]
  omega

theorem RateLimiter.is_allowed_fst (rl : RateLimiter) (client : String) (now : ℚ) :
    (rl.is_allowed client now).1 =
      decide ((pruneLog rl.window_seconds now (rl.clients client)).length < rl.max_requests) := by
  by_cases h : rl.max_requests ≤ (pruneLog rl.window_seconds now (rl.clients client)).length
  · simp [is_allowed, h]
    try omega
  · simp [is_allowed, h]
    try omega

theorem RateLimiter.is_allowed_clients_self (rl : RateLimiter) (client : String) (now : ℚ) :
    ((rl.is_allowed client now).2).clients client =
      (if rl.max_requests ≤ (pruneLog rl.window_seconds now (rl.clients client)).length
       then pruneLog rl.window_seconds now (rl.clients client)
       else pruneLog rl.window_seconds now (rl.clients client) ++ [now]) := by
  by_cases h : rl.max_requests ≤ (pruneLog rl.window_seconds now (rl.clients client)).length
  · simp [is_allowed, h]
  · simp [is_allowed, h]

theorem RateLimiter.is_allowed_clients_other (rl : RateLimiter) (client : String) (now : ℚ)
    {c : String} (hc : c ≠ client) :
    ((rl.is_allowed client now).2).clients c = rl.clients c := by
  by_cases h : rl.max_requests ≤ (pruneLog rl.window_seconds now (rl.clients client)).length
  · simp [is_allowed, h, hc]
  · simp [is_allowed, h, hc]

theorem RateLimiter.is_allowed_config (rl : RateLimiter) (client : String) (now : ℚ) :
    ((rl.is_allowed client now).2).max_requests = rl.max_requests ∧
      ((rl.is_allowed client now).2).window_seconds = rl.window_seconds := by
  by_cases h : rl.max_requests ≤ (pruneLog rl.window_seconds now (rl.clients client)).length
  · simp [is_allowed, h]
  · simp [is_allowed, h]

theorem pruneLog_keep_all {w now : ℚ} {l : List ℚ} (hall : ∀ t ∈ l, now - w < t) :
    RateLimiter.pruneLog w now l = l :=
  dropWhile_eq_self_of_all_false fun t ht => decide_eq_false (not_le.mpr (hall t ht))

theorem get_wait_time_fst (rl : RateLimiter) (client : String) (now : ℚ) :
    (rl.get_wait_time client now).1 =
      (if (RateLimiter.pruneLog rl.window_seconds now (rl.clients client)).length < rl.max_requests
       then 0
       else max 0 ((RateLimiter.pruneLog rl.window_seconds now (rl.clients client)).headI
          + rl.window_seconds - now)) := by
  by_cases h : (RateLimiter.pruneLog rl.window_seconds now (rl.clients client)).length < rl.max_requests
  · simp [RateLimiter.get_wait_time, h]
  · simp [RateLimiter.get_wait_time, h]

/-! ## Claim theorems -/

/-- C3: with `max_requests = 3, window_seconds = 60`, four requests from the
same client inside one window are decided allow, allow, allow, block, and a
first request from a distinct client is still allowed afterwards. -/
theorem rate_limiter_burst_pattern (t1 t2 t3 t4 : ℚ) (c1 c2 : String)
    (h12 : t1 ≤ t2) (h23 : t2 ≤ t3) (h34 : t3 ≤ t4) (hw : t4 - 60 < t1)
    (hc : c2 ≠ c1) :
    RateLimiter.runCalls (RateLimiter.init 3 60)
        [(c1, t1), (c1, t2), (c1, t3), (c1, t4), (c2, t4)] =
      [true, true, true, false, true] := by
  set rl0 := RateLimiter.init 3 60 with hrl0
  have h0m : rl0.max_requests = 3 := rfl
  have h0w : rl0.window_seconds = 60 := rfl
  have h0c1 : rl0.clients c1 = [] := rfl
  have h0c2 : rl0.clients c2 = [] := rfl
  -- call 1
  obtain ⟨h1m, h1w⟩ := RateLimiter.is_allowed_config rl0 c1 t1
  have hp1 : RateLimiter.pruneLog rl0.window_seconds t1 (rl0.clients c1) = [] := by
    rw [h0w, h0c1]
    rfl
  have b1 : (rl0.is_allowed c1 t1).1 = true := by
    rw [RateLimiter.is_allowed_fst, hp1, h0m]
    simp
  set s1 := (rl0.is_allowed c1 t1).2 with hs1
  have s1c1 : s1.clients c1 = [t1] := by
    rw [hs1, RateLimiter.is_allowed_clients_self, hp1, h0m]
    simp
  have s1c2 : s1.clients c2 = [] := by
    rw [hs1, RateLimiter.is_allowed_clients_other rl0 c1 t1 hc]
    exact h0c2
  -- call 2
  obtain ⟨h2m, h2w⟩ := RateLimiter.is_allowed_config s1 c1 t2
  have hp2 : RateLimiter.pruneLog s1.window_seconds t2 (s1.clients c1) = [t1] := by
    rw [h1w, h0w, s1c1]
    exact pruneLog_keep_all
      (by intro t ht; rw [List.mem_singleton] at ht; subst ht; linarith)
  have b2 : (s1.is_allowed c1 t2).1 = true := by
    rw [RateLimiter.is_allowed_fst, hp2, h1m, h0m]
    simp
  set s2 := (s1.is_allowed c1 t2).2 with hs2
  have s2c1 : s2.clients c1 = [t1, t2] := by
    rw [hs2, RateLimiter.is_allowed_clients_self, hp2, h1m, h0m]
    simp
  have s2c2 : s2.clients c2 = [] := by
    rw [hs2, RateLimiter.is_allowed_clients_other s1 c1 t2 hc]
    exact s1c2
  -- call 3
  obtain ⟨h3m, h3w⟩ := RateLimiter.is_allowed_config s2 c1 t3
  have hp3 : RateLimiter.pruneLog s2.window_seconds t3 (s2.clients c1) = [t1, t2] := by
    rw [h2w, h1w, h0w, s2c1]
    refine pruneLog_keep_all ?_
    intro t ht
    rcases List.mem_cons.mp ht with h | h
    · subst h; linarith
    · rw [List.mem_singleton] at h; subst h; linarith
  have b3 : (s2.is_allowed c1 t3).1 = true := by
    rw [RateLimiter.is_allowed_fst, hp3, h2m, h1m, h0m]
    simp
  set s3 := (s2.is_allowed c1 t3).2 with hs3
  have s3c1 : s3.clients c1 = [t1, t2, t3] := by
    rw [hs3, RateLimiter.is_allowed_clients_self, hp3, h2m, h1m, h0m]
    simp
  have s3c2 : s3.clients c2 = [] := by
    rw [hs3, RateLimiter.is_allowed_clients_other s2 c1 t3 hc]
    exact s2c2
  -- call 4 (blocked)
  obtain ⟨h4m, h4w⟩ := RateLimiter.is_allowed_config s3 c1 t4
  have hp4 : RateLimiter.pruneLog s3.window_seconds t4 (s3.clients c1) = [t1, t2, t3] := by
    rw [h3w, h2w, h1w, h0w, s3c1]
    refine pruneLog_keep_all ?_
    intro t ht
    rcases List.mem_cons.mp ht with h | h
    · subst h; linarith
    rcases List.mem_cons.mp h with h | h
    · subst h; linarith
    · rw [List.mem_singleton] at h; subst h; linarith
  have b4 : (s3.is_allowed c1 t4).1 = false := by
    rw [RateLimiter.is_allowed_fst, hp4, h3m, h2m, h1m, h0m]
    simp
  set s4 := (s3.is_allowed c1 t4).2 with hs4
  have s4c2 : s4.clients c2 = [] := by
    rw [hs4, RateLimiter.is_allowed_clients_other s3 c1 t4 hc]
    exact s3c2
  obtain ⟨h5m, h5w⟩ := RateLimiter.is_allowed_config s4 c2 t4
  -- call 5 (fresh client)
  have hp5 : RateLimiter.pruneLog s4.window_seconds t4 (s4.clients c2) = [] := by
    rw [s4c2]
    rfl
  have b5 : (s4.is_allowed c2 t4).1 = true := by
    rw [RateLimiter.is_allowed_fst, hp5, h4m, h3m, h2m, h1m, h0m]
    simp
  simp only [RateLimiter.runCalls]
  rw [b1, ← hs1, b2, ← hs2, b3, ← hs3, b4, ← hs4, b5]

/-- Witness for C3 at concrete inputs. -/
theorem rate_limiter_burst_pattern_witness :
    ((0 : ℚ) ≤ 0 ∧ (0 : ℚ) - 60 < 0 ∧ "b" ≠ "a") ∧
      RateLimiter.runCalls (RateLimiter.init 3 60)
          [("a", 0), ("a", 0), ("a", 0), ("a", 0), ("b", 0)] =
        [true, true, true, false, true] :=
  ⟨⟨le_refl 0, by norm_num, by simp⟩,
    rate_limiter_burst_pattern 0 0 0 0 "a" "b" (le_refl 0) (le_refl 0) (le_refl 0)
      (by norm_num) (by simp)⟩

/-- C6: `get_wait_time` returns `0.0` for a client under the limit; at the
limit it returns exactly the time until the oldest surviving timestamp
leaves the window, a value in `(0, window_seconds]`; and once every logged
timestamp has left the window the client is allowed again. -/
theorem rate_limiter_wait_time_spec :
    (∀ (rl : RateLimiter) (c : String) (now : ℚ),
        (RateLimiter.pruneLog rl.window_seconds now (rl.clients c)).length < rl.max_requests →
        (rl.get_wait_time c now).1 = 0) ∧
    (∀ (rl : RateLimiter) (c : String) (now : ℚ),
        0 < rl.max_requests →
        rl.max_requests ≤ (RateLimiter.pruneLog rl.window_seconds now (rl.clients c)).length →
        (∀ t ∈ rl.clients c, t ≤ now) →
        (rl.get_wait_time c now).1 =
            (RateLimiter.pruneLog rl.window_seconds now (rl.clients c)).headI
              + rl.window_seconds - now ∧
          0 < (rl.get_wait_time c now).1 ∧
          (rl.get_wait_time c now).1 ≤ rl.window_seconds) ∧
    (∀ (rl : RateLimiter) (c : String) (now : ℚ),
        0 < rl.max_requests →
        (∀ t ∈ rl.clients c, t ≤ now - rl.window_seconds) →
        (rl.is_allowed c now).1 = true) := by
  refine ⟨?_, ?_, ?_⟩
  · intro rl c now h
    rw [get_wait_time_fst, if_pos h]
  · intro rl c now hmax hlen hts
    set pruned := RateLimiter.pruneLog rl.window_seconds now (rl.clients c) with hpr
    obtain ⟨x, xs, hx⟩ : ∃ x xs, pruned = x :: xs := by
      cases hp : pruned with
      | nil =>
        rw [hp] at hlen
        simp at hlen
        omega
      | cons x xs => exact ⟨x, xs, rfl⟩
    have hxgt : now - rl.window_seconds < x := by
      have := head_of_dropWhile_eq_cons (rl.clients c) (hpr ▸ hx)
      have := of_decide_eq_false this
      linarith [not_le.mp this]
    have hxle : x ≤ now := by
      apply hts
      have hsub : x ∈ pruned := by
        rw [hx]
        exact List.mem_cons_self x xs
      rw [hpr] at hsub
      exact (List.dropWhile_suffix _ (l := rl.clients c)).sublist.subset hsub
    have hhead : pruned.headI = x := by
      rw [hx]
      rfl
    have hval : (rl.get_wait_time c now).1 =
        pruned.headI + rl.window_seconds - now := by
      rw [get_wait_time_fst, if_neg (not_lt.mpr (hpr ▸ hlen)), ← hpr, hhead]
      exact max_eq_right (by linarith)
    refine ⟨hval, ?_, ?_⟩
    · rw [hval, hhead]
      linarith
    · rw [hval, hhead]
      linarith
  · intro rl c now hmax hts
    rw [RateLimiter.is_allowed_fst]
    have : RateLimiter.pruneLog rl.window_seconds now (rl.clients c) = [] :=
      dropWhile_eq_nil_of_all_true fun t ht => decide_eq_true (hts t ht)
    rw [this]
    simpa using hmax

/-- Witness for C6 at a concrete limiter state. -/
theorem rate_limiter_wait_time_spec_witness :
    ((RateLimiter.mk 3 60 (fun c => if c = "a" then [0, 1, 2] else [])).get_wait_time "b" 0).1 = 0 ∧
      ((RateLimiter.mk 3 60 (fun c => if c = "a" then [0, 1, 2] else [])).get_wait_time "a" 2).1 = 58 ∧
      ((RateLimiter.mk 3 60 (fun c => if c = "a" then [0, 1, 2] else [])).is_allowed "a" 62).1 = true := by
  obtain ⟨hunder, hat, hafter⟩ := rate_limiter_wait_time_spec
  refine ⟨?_, ?_, ?_⟩
  · apply hunder (RateLimiter.mk 3 60 (fun c => if c = "a" then [0, 1, 2] else [])) "b" 0
    simp [RateLimiter.pruneLog]
  · have h := hat (RateLimiter.mk 3 60 (fun c => if c = "a" then [0, 1, 2] else [])) "a" 2
      (by norm_num)
      (by simp [RateLimiter.pruneLog, List.dropWhile]; norm_num)
      (by intro t ht; simp at ht; rcases ht with h | h | h <;> rw [h] <;> norm_num)
    rw [h.1]
    simp [RateLimiter.pruneLog, List.dropWhile]
    norm_num
  · apply hafter (RateLimiter.mk 3 60 (fun c => if c = "a" then [0, 1, 2] else [])) "a" 62
      (by norm_num)
    intro t ht
    simp at ht
    rcases ht with h | h | h <;> rw [h] <;> norm_num

/-- C9: a rejected `is_allowed` call leaves the client's log equal to its
pruned previous log — a suffix of the old log with no new timestamp — and
leaves every other client's log untouched. -/
theorem rate_limiter_rejected_no_record (rl : RateLimiter) (c : String) (now : ℚ)
    (hrej : (rl.is_allowed c now).1 = false) :
    ((rl.is_allowed c now).2).clients c =
        RateLimiter.pruneLog rl.window_seconds now (rl.clients c) ∧
      ((rl.is_allowed c now).2).clients c <:+ rl.clients c ∧
      (∀ t ∈ ((rl.is_allowed c now).2).clients c, t ∈ rl.clients c) ∧
      (∀ c2, c2 ≠ c → ((rl.is_allowed c now).2).clients c2 = rl.clients c2) := by
  have hlen : rl.max_requests ≤
      (RateLimiter.pruneLog rl.window_seconds now (rl.clients c)).length := by
    rw [RateLimiter.is_allowed_fst] at hrej
    have := of_decide_eq_false hrej
    omega
  have hself : ((rl.is_allowed c now).2).clients c =
      RateLimiter.pruneLog rl.window_seconds now (rl.clients c) := by
    rw [RateLimiter.is_allowed_clients_self]
    simp [hlen]
  refine ⟨hself, ?_, ?_, ?_⟩
  · rw [hself]
    exact List.dropWhile_suffix _ (l := rl.clients c)
  · intro t ht
    rw [hself] at ht
    exact (List.dropWhile_suffix _ (l := rl.clients c)).sublist.subset ht
  · intro c2 hc2
    exact RateLimiter.is_allowed_clients_other rl c now hc2

/-- Witness for C9: a second request at the limit `max_requests = 1`. -/
theorem rate_limiter_rejected_no_record_witness :
    ((RateLimiter.mk 1 60 (fun c => if c = "a" then [0] else [])).is_allowed "a" 1).1 = false ∧
      (((RateLimiter.mk 1 60 (fun c => if c = "a" then [0] else [])).is_allowed "a" 1).2).clients "a" =
        RateLimiter.pruneLog 60 1 [0] := by
  have hrej : ((RateLimiter.mk 1 60 (fun c => if c = "a" then [0] else [])).is_allowed "a" 1).1 = false := by
    rw [RateLimiter.is_allowed_fst]
    simp [RateLimiter.pruneLog, List.dropWhile]
    try norm_num
  refine ⟨hrej, ?_⟩
  have h := rate_limiter_rejected_no_record
    (RateLimiter.mk 1 60 (fun c => if c = "a" then [0] else [])) "a" 1 hrej
  exact h.1

theorem foldl_push2 {β M : Type _} (cap : Nat) (u a : β → M) :
    ∀ (ys : List β) (s : List M),
      ys.foldl (fun st y => pushCap cap (pushCap cap st (u y)) (a y)) s =
        ((ys.map (fun y => [u y, a y])).flatten).foldl (pushCap cap) s := by
  intro ys
  induction ys with
  | nil => intro s; rfl
  | cons y rest ih =>
    intro s
    simp only [List.foldl_cons, List.map_cons, List.flatten_cons, List.foldl_append]
    exact ih _

theorem length_join_pairs {β M : Type _} (u a : β → M) (ys : List β) :
    ((ys.map (fun y => [u y, a y])).flatten).length = 2 * ys.length := by
  induction ys with
  | nil => rfl
  | cons y rest ih =>
    rw [List.map_cons, List.flatten_cons, List.length_append, ih, List.length_cons]
    simp
    omega

/-- C4: after `N+1` appends to the capacity-`N` conversation memory, the
snapshot holds exactly the last `N` appended pairs, oldest first — the
first variant stores `N = MAX_MEMORY = 5` stripped exchange pairs, the
second stores `2N` individual role messages with `N = MAX_MEMORY = 20` —
so the oldest pair is evicted and order stays chronological. -/
theorem memory_capacity_eviction :
    (∀ xs : List (String × String), xs.length = V1.MAX_MEMORY + 1 →
      V1.get_memory (xs.foldl (fun st p => V1.add_to_memory st p.1 p.2) []) =
          (xs.drop 1).map (fun p => ⟨pyStripS p.1, pyStripS p.2⟩) ∧
        (xs.foldl (fun st p => V1.add_to_memory st p.1 p.2) []).length = V1.MAX_MEMORY) ∧
    (∀ ys : List (String × String × Int), ys.length = V2.MAX_MEMORY + 1 →
      V2.get_memory (ys.foldl (fun st y => V2.add_to_memory st y.1 y.2.1 y.2.2) []) =
          ((ys.drop 1).map (fun y =>
            [V2.ScoredMessage.mk V2.Role.user y.1 y.2.2,
             V2.ScoredMessage.mk V2.Role.assistant y.2.1 y.2.2])).flatten ∧
        (ys.foldl (fun st y => V2.add_to_memory st y.1 y.2.1 y.2.2) []).length =
          V2.MAX_MEMORY * 2) := by
  constructor
  · intro xs hxs
    have hfold : xs.foldl (fun st p => V1.add_to_memory st p.1 p.2) [] =
        (xs.map (fun p => V1.Exchange.mk (pyStripS p.1) (pyStripS p.2))).foldl
          (pushCap V1.MAX_MEMORY) [] := by
      rw [List.foldl_map]
      rfl
    have hdrop : (xs.map (fun p => V1.Exchange.mk (pyStripS p.1) (pyStripS p.2))).foldl
        (pushCap V1.MAX_MEMORY) [] =
          (xs.map (fun p => V1.Exchange.mk (pyStripS p.1) (pyStripS p.2))).drop 1 := by
      rw [foldl_pushCap V1.MAX_MEMORY (by norm_num [V1.MAX_MEMORY])]
      rw [List.length_map, hxs]
      rfl
    constructor
    · show xs.foldl (fun st p => V1.add_to_memory st p.1 p.2) [] = _
      rw [hfold, hdrop]
      exact Eq.symm (List.map_drop _ xs 1)
    · rw [hfold, hdrop, List.length_drop, List.length_map, hxs]
      rfl
  · intro ys hys
    have hfold : ys.foldl (fun st y => V2.add_to_memory st y.1 y.2.1 y.2.2) [] =
        ((ys.map (fun y =>
            [V2.ScoredMessage.mk V2.Role.user y.1 y.2.2,
             V2.ScoredMessage.mk V2.Role.assistant y.2.1 y.2.2])).flatten).foldl
          (pushCap (V2.MAX_MEMORY * 2)) [] := by
      exact foldl_push2 (V2.MAX_MEMORY * 2)
        (fun y => V2.ScoredMessage.mk V2.Role.user y.1 y.2.2)
        (fun y => V2.ScoredMessage.mk V2.Role.assistant y.2.1 y.2.2) ys []
    have hlenjoin : ((ys.map (fun y =>
        [V2.ScoredMessage.mk V2.Role.user y.1 y.2.2,
         V2.ScoredMessage.mk V2.Role.assistant y.2.1 y.2.2])).flatten).length =
          2 * ys.length :=
      length_join_pairs _ _ ys
    obtain ⟨y0, rest, hysc⟩ : ∃ y0 rest, ys = y0 :: rest := by
      cases ys with
      | nil => simp at hys
      | cons y0 rest => exact ⟨y0, rest, rfl⟩
    have hdrop : ((ys.map (fun y =>
        [V2.ScoredMessage.mk V2.Role.user y.1 y.2.2,
         V2.ScoredMessage.mk V2.Role.assistant y.2.1 y.2.2])).flatten).drop 2 =
          ((ys.drop 1).map (fun y =>
            [V2.ScoredMessage.mk V2.Role.user y.1 y.2.2,
             V2.ScoredMessage.mk V2.Role.assistant y.2.1 y.2.2])).flatten := by
      rw [hysc]
      simp [List.flatten]
    have hcap : ys.foldl (fun st y => V2.add_to_memory st y.1 y.2.1 y.2.2) [] =
        ((ys.map (fun y =>
            [V2.ScoredMessage.mk V2.Role.user y.1 y.2.2,
             V2.ScoredMessage.mk V2.Role.assistant y.2.1 y.2.2])).flatten).drop 2 := by
      rw [hfold, foldl_pushCap (V2.MAX_MEMORY * 2) (by norm_num [V2.MAX_MEMORY]),
        hlenjoin, hys]
      rfl
    constructor
    · show ys.foldl (fun st y => V2.add_to_memory st y.1 y.2.1 y.2.2) [] = _
      rw [hcap, hdrop]
    · rw [hcap, List.length_drop, hlenjoin, hys]
      rfl

/-- Witness for C4 with six / twenty-one concrete appends. -/
theorem memory_capacity_eviction_witness :
    ((List.replicate 6 (("u" : String), ("b" : String))).length = V1.MAX_MEMORY + 1 ∧
      V1.get_memory ((List.replicate 6 (("u" : String), ("b" : String))).foldl
          (fun st p => V1.add_to_memory st p.1 p.2) []) =
        ((List.replicate 6 (("u" : String), ("b" : String))).drop 1).map
          (fun p => ⟨pyStripS p.1, pyStripS p.2⟩)) ∧
    ((List.replicate 21 (("u" : String), ("b" : String), (1 : Int))).length = V2.MAX_MEMORY + 1 ∧
      ((List.replicate 21 (("u" : String), ("b" : String), (1 : Int))).foldl
          (fun st y => V2.add_to_memory st y.1 y.2.1 y.2.2) []).length = V2.MAX_MEMORY * 2) := by
  obtain ⟨h1, h2⟩ := memory_capacity_eviction
  constructor
  · exact ⟨by simp [V1.MAX_MEMORY], (h1 _ (by simp [V1.MAX_MEMORY])).1⟩
  · exact ⟨by simp [V2.MAX_MEMORY], (h2 _ (by simp [V2.MAX_MEMORY])).2⟩

/-- C2 counterexample: in the `super-roast-bot` variant the Streamlit call
site DOES record an exchange in Conversation Memory for a whitespace-only
(non-empty, hence truthy) input: the memory afterwards holds the
whitespace input and the canned reply. -/
theorem handleTurn_whitespace_writes_memory :
    V2.handleTurn true [] true (Except.ok "some roast") " " =
        [V2.ScoredMessage.mk V2.Role.user " " 1,
         V2.ScoredMessage.mk V2.Role.assistant cannedEmptyReply 1] ∧
      V2.handleTurn true [] true (Except.ok "some roast") " " ≠ [] := by
  have he : V2.handleTurn true [] true (Except.ok "some roast") " " =
      [V2.ScoredMessage.mk V2.Role.user " " 1,
       V2.ScoredMessage.mk V2.Role.assistant cannedEmptyReply 1] := rfl
  refine ⟨he, ?_⟩
  rw [he]
  simp

/-- C2 (amended): empty or whitespace-only input makes `chat` (and
`chat_stream`) of both variants return the canned reply without running
retrieval or the upstream call, and the first variant writes nothing to
memory; the hyphenated variant's call site skips truly empty input
entirely, but for whitespace-only non-empty input it still appends the
(input, canned reply) exchange to memory. -/
theorem chat_blank_input_short_circuit (s : String) (mem : List V1.Exchange)
    (store : List V2.ScoredMessage) (hasClient streaming : Bool)
    (upstream : Except String String)
    (hblank : (s.isEmpty || pyIsSpaceS s) = true) :
    V1.chat mem upstream s = ⟨cannedEmptyReply, mem, false⟩ ∧
      V2.chat hasClient upstream s = ⟨cannedEmptyReply, false, none⟩ ∧
      V2.chat_stream hasClient upstream s = (cannedEmptyReply, false) ∧
      V2.handleTurn streaming store hasClient upstream "" = store ∧
      (s.isEmpty = false →
        V2.handleTurn streaming store hasClient upstream s =
          V2.add_to_memory store s cannedEmptyReply 1) := by
  refine ⟨?_, ?_, ?_, ?_, ?_⟩
  · rw [V1.chat.eq_def, if_pos hblank]
  · rw [V2.chat.eq_def, if_pos hblank]
  · rw [V2.chat_stream.eq_def, if_pos hblank]
  · rfl
  · intro hne
    rw [V2.handleTurn, if_neg (by simp [hne])]
    have hreply : (if streaming then (V2.chat_stream hasClient upstream s).1
        else (V2.chat hasClient upstream s).reply) = cannedEmptyReply := by
      cases streaming with
      | true =>
        rw [if_pos rfl, V2.chat_stream.eq_def, if_pos hblank]
      | false =>
        rw [if_neg (by simp), V2.chat.eq_def, if_pos hblank]
    rw [hreply]

/-- Witness for C2's amended theorem at the whitespace input `" "`. -/
theorem chat_blank_input_short_circuit_witness :
    ((" ".isEmpty || pyIsSpaceS " ") = true ∧ " ".isEmpty = false) ∧
      V1.chat [] (Except.ok "r") " " = ⟨cannedEmptyReply, [], false⟩ ∧
      V2.handleTurn true [] true (Except.ok "r") " " =
        V2.add_to_memory [] " " cannedEmptyReply 1 := by
  have h := chat_blank_input_short_circuit " " [] [] true true (Except.ok "r") (by rfl)
  exact ⟨⟨by rfl, by rfl⟩, h.1, h.2.2.2.2 (by rfl)⟩

/-- C7 counterexample: for an authentication-class upstream failure
(`"401"` in the error text) the non-streaming `chat` of the hyphenated
variant RETURNS the same generic truncated reply as any other failure —
the credential message is not the returned reply (it only reaches the
`st.error` display channel), so the returned message is not
distinguishable from the generic shape. -/
theorem chat_auth_error_generic_return :
    V2.isAuthErrorMsg "401 boom" = true ∧
      (V2.chat true (Except.error "401 boom") "hi").reply =
        "Even I broke trying to roast you. Error: 401 boom" ∧
      (V2.chat true (Except.error "401 boom") "hi").reply =
        genericErrorReply "401 boom" ∧
      containsSub "Invalid".data ((V2.chat true (Except.error "401 boom") "hi").reply).data =
        false := by
  refine ⟨by rfl, by rfl, by rfl, by rfl⟩

/-- C7 (amended): every upstream failure is caught and mapped to a
user-safe reply string; `chat_stream` yields the distinguishable
credential message exactly for auth-class failures (otherwise the generic
reply embedding the error truncated to at most 100 characters);
the non-streaming `chat` of both variants returns the generic truncated
reply for every failure, the hyphenated one sending the credential
message to the display channel only. -/
theorem upstream_failure_reply_shape (e user_input : String)
    (mem : List V1.Exchange)
    (hne : (user_input.isEmpty || pyIsSpaceS user_input) = false) :
    V1.chat mem (Except.error e) user_input = ⟨genericErrorReply e, mem, true⟩ ∧
      (V2.chat true (Except.error e) user_input).reply = genericErrorReply e ∧
      (V2.chat true (Except.error e) user_input).displayedError =
        some (if V2.isAuthErrorMsg e then V2.authErrorReply
              else "Error generating roast: " ++ e) ∧
      (V2.chat_stream true (Except.error e) user_input).1 =
        (if V2.isAuthErrorMsg e then V2.authErrorReply else genericErrorReply e) ∧
      (trunc100 e).length ≤ 100 := by
  refine ⟨?_, ?_, ?_, ?_, ?_⟩
  · rw [V1.chat.eq_def, if_neg (by simp [hne])]
  · rw [V2.chat.eq_def, if_neg (by simp [hne])]
    rfl
  · rw [V2.chat.eq_def, if_neg (by simp [hne])]
    rfl
  · rw [V2.chat_stream.eq_def, if_neg (by simp [hne])]
    rfl
  · show (e.data.take 100).length ≤ 100
    rw [List.length_take]
    omega

/-- Witness for C7's amended theorem at a concrete auth-failure text. -/
theorem upstream_failure_reply_shape_witness :
    ("hi".isEmpty || pyIsSpaceS "hi") = false ∧
      V1.chat [] (Except.error "401 boom") "hi" =
        ⟨genericErrorReply "401 boom", [], true⟩ ∧
      (V2.chat_stream true (Except.error "401 boom") "hi").1 =
        (if V2.isAuthErrorMsg "401 boom" then V2.authErrorReply
         else genericErrorReply "401 boom") := by
  have h := upstream_failure_reply_shape "401 boom" "hi" [] (by rfl)
  exact ⟨by rfl, h.1, h.2.2.2.1⟩

theorem string_nil_isEmpty : ("" : String).isEmpty = true := rfl

/-- C1 (code-bug evidence): in `super roast bot/rag.py`, `retrieve_context`
with `top_k = 3` over a 2-chunk corpus returns THREE results, because the
FAISS padding label `-1` passes the bounds filter `i < len(CHUNKS)` and
Python resolves `CHUNKS[-1]` to the last chunk — the result length is not
capped at the corpus size and an out-of-range label is consumed.  The
hyphenated variant caps `fetch_k` with `min` and returns exactly
`corpus size` in-range results on the same input. -/
theorem retrieve_pad_leak_eval :
    faissSearch 2 (fun i => (i : ℚ)) 3 = [0, 1, -1] ∧
      V1.retrieveList ["a", "b"] (fun i => (i : ℚ)) 3 = ["a", "b", "b"] ∧
      (V1.retrieveList ["a", "b"] (fun i => (i : ℚ)) 3).length = 3 ∧
      V2.retrieveIndices 2 (fun i => (i : ℚ)) (fun _ => "") 3 "" = [0, 1] ∧
      (V2.retrieveIndices 2 (fun i => (i : ℚ)) (fun _ => "") 3 "").length = 2 := by
  have hsearch : faissSearch 2 (fun i => (i : ℚ)) 3 = [0, 1, -1] := by
    simp [faissSearch, rankedIndices, List.insertionSort, List.orderedInsert, faissLe,
      List.range_succ, List.replicate]
  have hlist : V1.retrieveList ["a", "b"] (fun i => (i : ℚ)) 3 = ["a", "b", "b"] := by
    simp only [V1.retrieveList, List.length_cons, List.length_nil, hsearch]
    simp [List.filter, pyGetD]
  have h2 : faissSearch 2 (fun i => (i : ℚ)) 2 = [0, 1] := by
    simp [faissSearch, rankedIndices, List.insertionSort, List.orderedInsert, faissLe,
      List.range_succ, List.replicate]
  have hind : V2.retrieveIndices 2 (fun i => (i : ℚ)) (fun _ => "") 3 "" = [0, 1] := by
    simp only [V2.retrieveIndices, V2.candidateIndices, string_nil_isEmpty, Bool.not_true,
      if_true, if_false]
    norm_num
    simp only [h2]
    simp [List.filter]
  exact ⟨hsearch, hlist, by rw [hlist]; rfl, hind, by rw [hind]; rfl⟩

/-- C8: an empty corpus is replaced by the single placeholder chunk and
retrieval does not fail — but in `super roast bot/rag.py` the default
`top_k = 3` call returns the placeholder text repeated three times (the
`-1` padding resolves to the last = only chunk), not the placeholder text
itself; the hyphenated variant returns exactly `"No data"`. -/
theorem empty_corpus_fallback_eval :
    V1.build_index [] = [V1.fallbackChunk] ∧
      V1.retrieve_context (V1.build_index []) (fun _ => (0 : ℚ)) 3 =
        V1.fallbackChunk ++ "\n\n" ++ V1.fallbackChunk ++ "\n\n" ++ V1.fallbackChunk ∧
      V1.retrieve_context (V1.build_index []) (fun _ => (0 : ℚ)) 3 ≠ V1.fallbackChunk ∧
      V2.load_and_chunk 500 (by norm_num) [] = ([V2.noDataChunk], [[]]) ∧
      V2.retrieve_context ["No data"] (fun _ => (0 : ℚ)) (fun _ => "") 3 "" = "No data" := by
  have hbuild : V1.build_index [] = [V1.fallbackChunk] := rfl
  have hsearch1 : faissSearch 1 (fun _ => (0 : ℚ)) 3 = [0, -1, -1] := by
    simp [faissSearch, rankedIndices, List.insertionSort, List.orderedInsert, faissLe,
      List.range_succ, List.replicate]
  have hlist : V1.retrieveList [V1.fallbackChunk] (fun _ => (0 : ℚ)) 3 =
      [V1.fallbackChunk, V1.fallbackChunk, V1.fallbackChunk] := by
    simp only [V1.retrieveList, List.length_cons, List.length_nil, hsearch1]
    simp [List.filter, pyGetD]
  have hctx : V1.retrieve_context (V1.build_index []) (fun _ => (0 : ℚ)) 3 =
      V1.fallbackChunk ++ "\n\n" ++ V1.fallbackChunk ++ "\n\n" ++ V1.fallbackChunk := by
    rw [V1.retrieve_context, hbuild, hlist]
    rfl
  have hv2search : faissSearch 1 (fun _ => (0 : ℚ)) 1 = [0] := by
    simp [faissSearch, rankedIndices, List.insertionSort, List.orderedInsert, faissLe,
      List.range_succ, List.replicate]
  have hv2 : V2.retrieve_context ["No data"] (fun _ => (0 : ℚ)) (fun _ => "") 3 "" =
      "No data" := by
    rw [V2.retrieve_context]
    have hind : V2.retrieveIndices 1 (fun _ => (0 : ℚ)) (fun _ => "") 3 "" = [0] := by
      simp only [V2.retrieveIndices, V2.candidateIndices, string_nil_isEmpty, Bool.not_true,
        if_true, if_false]
      norm_num
      simp only [hv2search]
      simp [List.filter]
    simp only [List.length_cons, List.length_nil, hind]
    rfl
  refine ⟨hbuild, hctx, ?_, rfl, hv2⟩
  rw [hctx]
  decide

theorem takeWhile_append_sat {p : α → Bool} {A B : List α}
    (hA : ∀ a ∈ A, p a = true) (hB : ∀ b ∈ B, p b = false) :
    (A ++ B).takeWhile p = A := by
  induction A with
  | nil =>
    rw [List.nil_append]
    cases B with
    | nil => rfl
    | cons b bs =>
      rw [List.takeWhile_cons, if_neg]
      rw [hB b (List.mem_cons_self b bs)]
      exact Bool.false_ne_true
  | cons a as ih =>
    rw [List.cons_append, List.takeWhile_cons,
      if_pos (hA a (List.mem_cons_self a as)), ih (fun x hx => hA x (List.mem_cons_of_mem a hx))]

theorem rerankTheme_eq_take_append (themes : Nat → String) (tn : String) (k : Nat)
    (cand : List Nat) :
    V2.rerankTheme themes tn k cand =
      (cand.filter (fun i => themes i == tn)).take k ++
        (cand.filter (fun i => !(themes i == tn))).take
          (k - (cand.filter (fun i => themes i == tn)).length) := by
  rw [V2.rerankTheme]
  exact List.take_append_eq_append_take

/-- C5: for a non-empty `dominant_theme`, `retrieve_context` re-ranks the
candidate pool with `rerankTheme`; the re-ranked selection is truncated to
`top_k` entries, its matching and non-matching subsequences are leading
segments of the base ranking's matching / non-matching subsequences (so
each group keeps the base semantic order), and all matching candidates
precede all non-matching ones (the matching elements are exactly the
leading `takeWhile` run of the selection). -/
theorem theme_rerank_spec :
    (∀ (n : Nat) (d : Nat → ℚ) (themes : Nat → String) (k : Nat) (dt : String),
        dt.isEmpty = false →
        V2.retrieveIndices n d themes k dt =
          V2.rerankTheme themes (pyStripS (pyLowerS dt)) k
            (V2.candidateIndices n d (min (k * 4) n))) ∧
    (∀ (themes : Nat → String) (tn : String) (k : Nat) (cand : List Nat),
        (V2.rerankTheme themes tn k cand).length = min k cand.length ∧
        (V2.rerankTheme themes tn k cand).filter (fun i => themes i == tn) <+:
          cand.filter (fun i => themes i == tn) ∧
        (V2.rerankTheme themes tn k cand).filter (fun i => !(themes i == tn)) <+:
          cand.filter (fun i => !(themes i == tn)) ∧
        (V2.rerankTheme themes tn k cand).takeWhile (fun i => themes i == tn) =
          (V2.rerankTheme themes tn k cand).filter (fun i => themes i == tn)) := by
  constructor
  · intro n d themes k dt hdt
    simp only [V2.retrieveIndices, hdt, Bool.not_false, if_true, Bool.false_eq_true,
      if_false]
  · intro themes tn k cand
    have hmemA : ∀ a ∈ (cand.filter (fun i => themes i == tn)).take k,
        (themes a == tn) = true := by
      intro a ha
      have h1 : a ∈ cand.filter (fun i => themes i == tn) := List.mem_of_mem_take ha
      exact @List.of_mem_filter _ (fun i => themes i == tn) a cand h1
    have hmemB : ∀ b ∈ (cand.filter (fun i => !(themes i == tn))).take
        (k - (cand.filter (fun i => themes i == tn)).length),
        (themes b == tn) = false := by
      intro b hb
      have h1 : b ∈ cand.filter (fun i => !(themes i == tn)) := List.mem_of_mem_take hb
      have h2 := @List.of_mem_filter _ (fun i => !(themes i == tn)) b cand h1
      simpa using h2
    have hkey := rerankTheme_eq_take_append themes tn k cand
    have hAfix : ((cand.filter (fun i => themes i == tn)).take k).filter
        (fun i => themes i == tn) = (cand.filter (fun i => themes i == tn)).take k :=
      List.filter_eq_self.mpr hmemA
    have hAnil : ((cand.filter (fun i => themes i == tn)).take k).filter
        (fun i => !(themes i == tn)) = [] := by
      apply List.filter_eq_nil_iff.mpr
      intro a ha
      rw [hmemA a ha]
      simp
    have hBfix : ((cand.filter (fun i => !(themes i == tn))).take
        (k - (cand.filter (fun i => themes i == tn)).length)).filter
        (fun i => !(themes i == tn)) =
          (cand.filter (fun i => !(themes i == tn))).take
            (k - (cand.filter (fun i => themes i == tn)).length) := by
      apply List.filter_eq_self.mpr
      intro b hb
      rw [hmemB b hb]
      rfl
    have hBnil : ((cand.filter (fun i => !(themes i == tn))).take
        (k - (cand.filter (fun i => themes i == tn)).length)).filter
        (fun i => themes i == tn) = [] := by
      apply List.filter_eq_nil_iff.mpr
      intro b hb
      rw [hmemB b hb]
      exact Bool.false_ne_true
    have hfilA : (V2.rerankTheme themes tn k cand).filter (fun i => themes i == tn) =
        (cand.filter (fun i => themes i == tn)).take k := by
      rw [hkey, List.filter_append, hAfix, hBnil, List.append_nil]
    refine ⟨?_, ?_, ?_, ?_⟩
    · rw [V2.rerankTheme, List.length_take, List.length_append,
        ← List.length_eq_length_filter_add]
    · rw [hfilA]
      exact List.take_prefix k _
    · rw [hkey, List.filter_append, hAnil, hBfix, List.nil_append]
      exact List.take_prefix _ _
    · rw [hfilA, hkey]
      exact takeWhile_append_sat hmemA hmemB

/-- Witness for C5 at a concrete themed candidate pool. -/
theorem theme_rerank_spec_witness :
    (("X" : String).isEmpty = false ∧
      V2.retrieveIndices 1 (fun _ => (0 : ℚ)) (fun _ => "") 1 "X" =
        V2.rerankTheme (fun _ => "") (pyStripS (pyLowerS "X")) 1
          (V2.candidateIndices 1 (fun _ => (0 : ℚ)) (min (1 * 4) 1))) ∧
      (V2.rerankTheme (fun i => if i % 2 = 0 then "gym" else "") "gym" 3
          [1, 2, 3, 4, 5]).length = min 3 ([1, 2, 3, 4, 5] : List Nat).length ∧
      (V2.rerankTheme (fun i => if i % 2 = 0 then "gym" else "") "gym" 3
          [1, 2, 3, 4, 5]).takeWhile (fun i => (if i % 2 = 0 then "gym" else "") == "gym") =
        (V2.rerankTheme (fun i => if i % 2 = 0 then "gym" else "") "gym" 3
          [1, 2, 3, 4, 5]).filter (fun i => (if i % 2 = 0 then "gym" else "") == "gym") := by
  obtain ⟨hlink, hprops⟩ := theme_rerank_spec
  refine ⟨⟨rfl, hlink 1 (fun _ => (0 : ℚ)) (fun _ => "") 1 "X" rfl⟩, ?_, ?_⟩
  · exact (hprops (fun i => if i % 2 = 0 then "gym" else "") "gym" 3 [1, 2, 3, 4, 5]).1
  · exact (hprops (fun i => if i % 2 = 0 then "gym" else "") "gym" 3 [1, 2, 3, 4, 5]).2.2.2

theorem chunkThemeStep_foldl_len (csz : Nat) (hc : 0 < csz) (lines : List (List Char)) :
    ∀ acc : List (List Char) × List (List Char),
      acc.1.length = acc.2.length →
      ((lines.foldl (V2.chunkThemeStep csz hc) acc).1).length =
        ((lines.foldl (V2.chunkThemeStep csz hc) acc).2).length := by
  induction lines with
  | nil => intro acc h; exact h
  | cons l rest ih =>
    intro acc h
    rw [List.foldl_cons]
    apply ih
    simp only [V2.chunkThemeStep]
    by_cases ht : (V2.lineThemeText l).2 = []
    · rw [if_pos ht]
      exact h
    · rw [if_neg ht]
      simp [h]

theorem chunkThemeStep_foldl_mem (csz : Nat) (hc : 0 < csz) (lines : List (List Char)) :
    ∀ acc : List (List Char) × List (List Char),
      ∀ c ∈ (lines.foldl (V2.chunkThemeStep csz hc) acc).1,
        c ∈ acc.1 ∨ (pyStrip c = c ∧ c ≠ [] ∧ c.length ≤ csz) := by
  induction lines with
  | nil => intro acc c hcm; exact Or.inl hcm
  | cons l rest ih =>
    intro acc c hcm
    rw [List.foldl_cons] at hcm
    rcases ih (V2.chunkThemeStep csz hc acc l) c hcm with hin | hprop
    · simp only [V2.chunkThemeStep] at hin
      by_cases ht : (V2.lineThemeText l).2 = []
      · rw [if_pos ht] at hin
        exact Or.inl hin
      · rw [if_neg ht] at hin
        rcases List.mem_append.mp hin with h1 | h2
        · exact Or.inl h1
        · exact Or.inr (chunkBySize_mem csz hc _ c h2)
    · exact Or.inr hprop

/-- C10: every chunk produced by `load_and_chunk` is non-empty after
whitespace stripping and at most `chunk_size` characters long (for the
theme-aware variant, for any `chunk_size` that accommodates the 7-character
`"No data"` placeholder — the default 500 does); in the theme-aware
variant the chunk list and the theme-label list always have the same
length. -/
theorem load_and_chunk_bounds :
    (∀ (csz : Nat) (hc : 0 < csz) (text : List Char),
        ∀ c ∈ V1.load_and_chunk csz hc text, pyStrip c ≠ [] ∧ c.length ≤ csz) ∧
    (∀ (csz : Nat) (hc : 0 < csz) (rawLines : List (List Char)),
        (V2.load_and_chunk csz hc rawLines).1.length =
          (V2.load_and_chunk csz hc rawLines).2.length ∧
        (7 ≤ csz → ∀ c ∈ (V2.load_and_chunk csz hc rawLines).1,
          pyStrip c ≠ [] ∧ c.length ≤ csz)) := by
  constructor
  · intro csz hc text c hcm
    obtain ⟨hfix, hne, hlen⟩ := chunkBySize_mem csz hc text c hcm
    exact ⟨by rw [hfix]; exact hne, hlen⟩
  · intro csz hc rawLines
    simp only [V2.load_and_chunk]
    set lines := (rawLines.filter
        (fun l => !(pyStrip l).isEmpty && !(decide (l.head? = some '#')))).map pyStrip
      with hlines
    by_cases hnil : (lines.foldl (V2.chunkThemeStep csz hc) ([], [])).1 = []
    · rw [if_pos hnil]
      refine ⟨rfl, ?_⟩
      intro hcsz c hcm
      rw [List.mem_singleton] at hcm
      subst hcm
      constructor
      · intro hbad
        have : pyStrip V2.noDataChunk = V2.noDataChunk := by decide
        rw [this] at hbad
        simp [V2.noDataChunk] at hbad
      · have : V2.noDataChunk.length = 7 := by decide
        omega
    · rw [if_neg hnil]
      refine ⟨chunkThemeStep_foldl_len csz hc lines ([], []) rfl, ?_⟩
      intro hcsz c hcm
      rcases chunkThemeStep_foldl_mem csz hc lines ([], []) c hcm with hin | hprop
      · simp at hin
      · exact ⟨by rw [hprop.1]; exact hprop.2.1, hprop.2.2⟩

/-- Witness for C10 at the default `chunk_size = 500`. -/
theorem load_and_chunk_bounds_witness :
    ((0 : Nat) < 500 ∧ (7 : Nat) ≤ 500) ∧
      (∀ c ∈ V1.load_and_chunk 500 (by norm_num) " hi ".data,
        pyStrip c ≠ [] ∧ c.length ≤ 500) ∧
      (V2.load_and_chunk 500 (by norm_num) ["[THEME:Gym] abc".data]).1.length =
        (V2.load_and_chunk 500 (by norm_num) ["[THEME:Gym] abc".data]).2.length ∧
      (∀ c ∈ (V2.load_and_chunk 500 (by norm_num) ["[THEME:Gym] abc".data]).1,
        pyStrip c ≠ [] ∧ c.length ≤ 500) := by
  obtain ⟨h1, h2⟩ := load_and_chunk_bounds
  exact ⟨⟨by norm_num, by norm_num⟩,
    h1 500 (by norm_num) " hi ".data,
    (h2 500 (by norm_num) ["[THEME:Gym] abc".data]).1,
    (h2 500 (by norm_num) ["[THEME:Gym] abc".data]).2 (by norm_num)⟩
